import Mathlib

/-!
Shallow embedding of the texture-packer core (`src/main.py`): the binary
split-tree packer (`PackedNode`, `Packer.find_node`, `Packer.split_node`,
`Packer.fit`), the multi-container orchestration (`pack_texture_blocks`)
and the append-state reconstruction (`load_packed_state`).

Python mutates the tree and the blocks in place; the embedding passes the
updated values explicitly.  Machine integers are `Nat`/`Int` (Python's
integers are unbounded, so no wrap-around modelling is needed).
-/

namespace TexturePacker

/-- One nested sub-region record (a value of the source's
`dict[str, dict[str, float]]` map).  The packer only reads and translates
the `x`/`y` entries and leaves the size entries untouched; coordinates are
modelled as integers. -/
structure SubTex where
  x : Int
  y : Int
  width : Int
  height : Int
  deriving DecidableEq, Repr

/-- `PackedNode` from the source.  `nil` stands for Python's `None` child
reference, so `Optional[PackedNode]` and the node itself are merged into a
single inductive.  `right` and `left` are the two children created by
`split_node` (`left` is the strip below the placed rectangle, `right` the
remainder to its right). -/
inductive PackedNode where
  | nil : PackedNode
  | node (x y w h : Nat) (used : Bool) (right left : PackedNode) : PackedNode
  deriving DecidableEq, Repr

namespace PackedNode

/-- The `x` field of a node (`0` on an absent node, never read there). -/
def getX : PackedNode → Nat
  | .nil => 0
  | .node x _ _ _ _ _ _ => x

/-- The `y` field of a node. -/
def getY : PackedNode → Nat
  | .nil => 0
  | .node _ y _ _ _ _ _ => y

/-- The `w` field of a node. -/
def getW : PackedNode → Nat
  | .nil => 0
  | .node _ _ w _ _ _ _ => w

/-- The `h` field of a node. -/
def getH : PackedNode → Nat
  | .nil => 0
  | .node _ _ _ h _ _ _ => h

/-- The `used` flag of a node. -/
def getUsed : PackedNode → Bool
  | .nil => false
  | .node _ _ _ _ u _ _ => u

end PackedNode

/-- `Packer.find_node`.  Python's `a or b` over optional nodes returns the
first non-`None` operand, i.e. the right subtree is searched first and the
left (down) subtree only if that found nothing. -/
def find_node : PackedNode → Nat → Nat → Option PackedNode
  | .nil, _, _ => none
  | .node x y w h used r l, width, height =>
    if used then
      match find_node r width height with
      | some n => some n
      | none => find_node l width height
    else if width ≤ w ∧ height ≤ h then
      some (.node x y w h used r l)
    else
      none

/-- `Packer.split_node`: mark the node used and overwrite its children with
the right remainder `(x+w, y, node.w−w, h)` and the down remainder
`(x, y+h, node.w, node.h−h)`. -/
def split_node : PackedNode → Nat → Nat → PackedNode
  | .nil, _, _ => .nil
  | .node x y w h _ _ _, width, height =>
    .node x y w h true
      (.node (x + width) y (w - width) height false .nil .nil)
      (.node x (y + height) w (h - height) false .nil .nil)

/-- `Packer.fit` for a single block: search exactly as `find_node` does and
split the found node in place.  Returns the placement origin together with
the updated tree, or `none` when no node fits (the source then stores
`None` in `block.packed_placement`). -/
def fit : PackedNode → Nat → Nat → Option (Nat × Nat × PackedNode)
  | .nil, _, _ => none
  | .node x y w h used r l, width, height =>
    if used then
      match fit r width height with
      | some (px, py, r2) => some (px, py, .node x y w h used r2 l)
      | none =>
        match fit l width height with
        | some (px, py, l2) => some (px, py, .node x y w h used r l2)
        | none => none
    else if width ≤ w ∧ height ≤ h then
      some (x, y, split_node (.node x y w h used r l) width height)
    else
      none

/-- `Block` from the source: dimensions, source identifier and the nested
sub-region map.  The pixel payload is represented by the filename, which is
what the canvas model records on a paste. -/
structure Block where
  w : Nat
  h : Nat
  filename : String
  subtextures : List (String × SubTex)
  deriving DecidableEq, Repr

/-- `PackedTexture`: one container, owning the packer's root tree and a
canvas.  The canvas is modelled as the list of paste operations applied to
it (`(source filename, x, y)`); a fresh canvas is the empty list. -/
structure PackedTexture where
  root : PackedNode
  image : List (String × Nat × Nat)
  deriving DecidableEq, Repr

/-- `PackedTextureIndex`: one Placement Index record. -/
structure PackedTextureIndex where
  packed_index : Nat
  top_left_corner_x : Nat
  top_left_corner_y : Nat
  packed_subtextures : List (String × SubTex)
  deriving DecidableEq, Repr

/-- Bookkeeping for one successful placement: the block as it was when the
orchestrator reached it (`preBlock`), the block after the in-place
subtexture mutation (`postBlock`), and the emitted record.  The source
keeps only the record list; the two block snapshots are ghost state that
let theorems speak about the in-place mutation. -/
structure PlacedEntry where
  preBlock : Block
  postBlock : Block
  record : PackedTextureIndex
  deriving DecidableEq, Repr

/-- The orchestrator's running state: `currently_created_packed_textures`
and (through `placed`) `packed_texture_indices`. -/
structure PackState where
  containers : List PackedTexture
  placed : List PlacedEntry
  deriving DecidableEq, Repr

/-- The emitted Placement Index list (`packed_texture_indices`). -/
def packed_texture_indices (st : PackState) : List PackedTextureIndex :=
  st.placed.map (fun e => e.record)

/-- Sort key of `pack_texture_blocks`: `min(block.w, block.h)`. -/
def minSide (b : Block) : Nat :=
  min b.w b.h

/-- Insert a block into a list already sorted descending by `minSide`,
after every strictly larger key and before every equal or smaller key.
Folded from the right this is a stable descending sort, matching Python's
`list.sort(key=..., reverse=True)`. -/
def insert_sorted (b : Block) : List Block → List Block
  | [] => [b]
  | a :: rest =>
    if minSide b < minSide a then a :: insert_sorted b rest
    else b :: a :: rest

/-- The stable size-descending sort performed at the top of
`pack_texture_blocks`. -/
def sortBlocks (blocks : List Block) : List Block :=
  blocks.foldr insert_sorted []

/-- The subtexture adjustment loop: add the placement origin to every
nested region's `x`/`y`. -/
def translate_subtextures (ox oy : Nat) (subs : List (String × SubTex)) :
    List (String × SubTex) :=
  subs.map (fun p => (p.1, { p.2 with x := p.2.x + (ox : Int), y := p.2.y + (oy : Int) }))

/-- A fresh `Packer(S, S)` root. -/
def freshRoot (S : Nat) : PackedNode :=
  .node 0 0 S S false .nil .nil

/-- The `for pt in currently_created_packed_textures` loop: offer the block
to each container in creation order; the first whose packer accepts it gets
the paste, and the origin is returned together with the updated container
list.  `none` when every container rejects the block. -/
def fit_into_existing (b : Block) :
    List PackedTexture → Option (List PackedTexture × Nat × Nat)
  | [] => none
  | c :: cs =>
    match fit c.root b.w b.h with
    | some (x, y, t) =>
      some ({ root := t, image := c.image ++ [(b.filename, x, y)] } :: cs, x, y)
    | none =>
      match fit_into_existing b cs with
      | some (cs2, x, y) => some (c :: cs2, x, y)
      | none => none

/-- The body of the main loop of `pack_texture_blocks` for one block.
On success in an existing container, the recorded container index is
`len(currently_created_packed_textures) - 1` exactly as in the source (the
length of the list, minus one — not the index of the accepting container).
When no existing container accepts the block, a fresh container is created,
offered the block, and appended whether or not the block fit; a record is
emitted (with index `len(currently_created_packed_textures)`) only on a
fit, and in that branch the subtexture map is not translated. -/
def pack_block (container_size : Nat) (st : PackState) (b : Block) : PackState :=
  match fit_into_existing b st.containers with
  | some (cs, x, y) =>
    let subs := if b.subtextures = [] then b.subtextures
                else translate_subtextures x y b.subtextures
    ⟨cs, st.placed ++ [⟨b, { b with subtextures := subs }, ⟨cs.length - 1, x, y, subs⟩⟩]⟩
  | none =>
    match fit (freshRoot container_size) b.w b.h with
    | some (x, y, t) =>
      ⟨st.containers ++ [⟨t, [(b.filename, x, y)]⟩],
       st.placed ++ [⟨b, b, ⟨st.containers.length, x, y, b.subtextures⟩⟩]⟩
    | none =>
      ⟨st.containers ++ [⟨freshRoot container_size, []⟩], st.placed⟩

/-- `pack_texture_blocks`: stable sort descending by minimum side, then the
placement loop starting from no containers and no records. -/
def pack_texture_blocks (texture_blocks : List Block) (container_size : Nat) :
    PackState :=
  (sortBlocks texture_blocks).foldl (pack_block container_size) ⟨[], []⟩

/-- `load_packed_state`: a container is rebuilt as
`PackedTexture(Packer(pt[0].w, pt[0].h), pt[1])` — a brand-new packer whose
root is a fresh unused node of the saved root's dimensions, while the saved
canvas is kept as-is.  The saved split tree itself is discarded. -/
def load_packed_state (saved : List PackedTexture) : List PackedTexture :=
  saved.map (fun pt =>
    { root := PackedNode.node 0 0 pt.root.getW pt.root.getH false .nil .nil,
      image := pt.image })

/-- Membership of the integer point `(i, j)` in the half-open rectangle
with origin `(x, y)`, width `w` and height `h`. -/
def inRect (x y w h i j : Nat) : Prop :=
  x ≤ i ∧ i < x + w ∧ y ≤ j ∧ j < y + h

instance (x y w h i j : Nat) : Decidable (inRect x y w h i j) := by
  unfold inRect; infer_instance

/-- Two half-open rectangles intersect. -/
def rectsIntersect (x1 y1 w1 h1 x2 y2 w2 h2 : Nat) : Bool :=
  decide (x1 < x2 + w2) && decide (x2 < x1 + w1) &&
  decide (y1 < y2 + h2) && decide (y2 < y1 + h1)

/-- Every node of the tree has width and height at most `S`.  This is an
invariant of every container tree created with edge length `S`. -/
def boundedTree (S : Nat) : PackedNode → Bool
  | .nil => true
  | .node _ _ w h _ r l =>
    decide (w ≤ S) && decide (h ≤ S) && boundedTree S r && boundedTree S l

/-- A block fits a fresh `S`-sized container: both sides at most `S`. -/
def fitsContainer (S : Nat) (b : Block) : Bool :=
  decide (b.w ≤ S) && decide (b.h ≤ S)


/-! ### Basic facts about the split tree -/

/-- Translating by the zero origin is the identity on subtexture maps. -/
theorem translate_subtextures_zero (l : List (String × SubTex)) :
    translate_subtextures 0 0 l = l := by
  simp [translate_subtextures]

/-- The `if block.subtextures:` guard in the source is immaterial: an empty
map translates to itself. -/
theorem ite_nil_translate (ox oy : Nat) (l : List (String × SubTex)) :
    (if l = [] then l else translate_subtextures ox oy l)
      = translate_subtextures ox oy l := by
  by_cases h : l = [] <;> simp [h, translate_subtextures]

/-- A fresh root is bounded by its own edge length. -/
theorem boundedTree_freshRoot (S : Nat) : boundedTree S (freshRoot S) = true := by
  simp [boundedTree, freshRoot]

/-- On a fresh root, a block with both sides at most `S` is placed at the
origin and the root is split. -/
theorem fit_fresh_of_fits (S width height : Nat) (hw : width ≤ S) (hh : height ≤ S) :
    fit (freshRoot S) width height
      = some (0, 0, split_node (freshRoot S) width height) := by
  simp [fit, freshRoot, hw, hh, split_node]

/-- Any successful `fit` on a fresh root happened at the origin, and the
block's sides were at most `S`. -/
theorem fit_fresh_origin (S width height x y : Nat) (t : PackedNode)
    (h : fit (freshRoot S) width height = some (x, y, t)) :
    x = 0 ∧ y = 0 ∧ width ≤ S ∧ height ≤ S := by
  by_cases hc : width ≤ S ∧ height ≤ S
  · simp [fit, freshRoot, hc] at h
    exact ⟨h.1.symm, h.2.1.symm, hc⟩
  · simp [fit, freshRoot, hc] at h

/-- A block exceeding `S` in either dimension fits nowhere in a tree all of
whose nodes are bounded by `S`. -/
theorem fit_none_of_oversized (S : Nat) (t : PackedNode) (width height : Nat)
    (hb : boundedTree S t = true) (hover : S < width ∨ S < height) :
    fit t width height = none := by
  induction t with
  | nil => rfl
  | node x y w h used r l ihr ihl =>
    simp only [boundedTree, Bool.and_eq_true, decide_eq_true_eq] at hb
    obtain ⟨⟨⟨hw, hh⟩, hbr⟩, hbl⟩ := hb
    cases used with
    | false =>
      have hno : ¬(width ≤ w ∧ height ≤ h) := by omega
      simp [fit, hno]
    | true =>
      simp [fit, ihr hbr, ihl hbl]

/-- `fit` keeps a bounded tree bounded. -/
theorem fit_bounded_preserved (S : Nat) (t : PackedNode) (width height : Nat)
    (hb : boundedTree S t = true) :
    ∀ x y t2, fit t width height = some (x, y, t2) → boundedTree S t2 = true := by
  induction t with
  | nil => intro x y t2 h; simp [fit] at h
  | node nx ny w h used r l ihr ihl =>
    intro px py t2 hfit
    simp only [boundedTree, Bool.and_eq_true, decide_eq_true_eq] at hb
    obtain ⟨⟨⟨hw, hh⟩, hbr⟩, hbl⟩ := hb
    cases used with
    | false =>
      by_cases hc : width ≤ w ∧ height ≤ h
      · simp [fit, hc, split_node] at hfit
        obtain ⟨-, -, ht⟩ := hfit
        subst ht
        simp [boundedTree]
        omega
      · simp [fit, hc] at hfit
    | true =>
      simp only [fit, if_true] at hfit
      cases hr : fit r width height with
      | some p =>
        obtain ⟨rx, ry, r2⟩ := p
        rw [hr] at hfit
        simp only [Option.some.injEq, Prod.mk.injEq] at hfit
        obtain ⟨-, -, ht⟩ := hfit
        subst ht
        simp only [boundedTree, Bool.and_eq_true, decide_eq_true_eq]
        exact ⟨⟨⟨hw, hh⟩, ihr hbr rx ry r2 hr⟩, hbl⟩
      | none =>
        rw [hr] at hfit
        cases hl : fit l width height with
        | some q =>
          obtain ⟨lx, ly, l2⟩ := q
          rw [hl] at hfit
          simp only [Option.some.injEq, Prod.mk.injEq] at hfit
          obtain ⟨-, -, ht⟩ := hfit
          subst ht
          simp only [boundedTree, Bool.and_eq_true, decide_eq_true_eq]
          exact ⟨⟨⟨hw, hh⟩, hbr⟩, ihl hbl lx ly l2 hl⟩
        | none => rw [hl] at hfit; exact absurd hfit (by simp)

/-- A successful `fit` into a bounded tree means the block was within
bounds. -/
theorem fit_some_le (S : Nat) (t : PackedNode) (width height : Nat)
    (hb : boundedTree S t = true) :
    ∀ p, fit t width height = some p → width ≤ S ∧ height ≤ S := by
  intro p hfit
  by_cases hover : S < width ∨ S < height
  · rw [fit_none_of_oversized S t width height hb hover] at hfit
    exact absurd hfit (by simp)
  · omega

/-! ### The container search loop -/

/-- Every container tree in the list is bounded by the edge length `S`. -/
def containersBounded (S : Nat) (cs : List PackedTexture) : Prop :=
  ∀ c ∈ cs, boundedTree S c.root = true

instance (S : Nat) (cs : List PackedTexture) : Decidable (containersBounded S cs) := by
  unfold containersBounded; infer_instance

/-- The container loop preserves the list length (one container is updated
in place, the rest are untouched). -/
theorem fit_into_existing_length (b : Block) (cs : List PackedTexture) :
    ∀ cs2 x y, fit_into_existing b cs = some (cs2, x, y) → cs2.length = cs.length := by
  induction cs with
  | nil => intro cs2 x y h; simp [fit_into_existing] at h
  | cons c rest ih =>
    intro cs2 x y h
    simp only [fit_into_existing] at h
    cases hf : fit c.root b.w b.h with
    | some p =>
      obtain ⟨px, py, t⟩ := p
      rw [hf] at h
      simp only [Option.some.injEq, Prod.mk.injEq] at h
      obtain ⟨hcs, -, -⟩ := h
      subst hcs
      simp
    | none =>
      rw [hf] at h
      cases hrec : fit_into_existing b rest with
      | some q =>
        obtain ⟨cs3, qx, qy⟩ := q
        rw [hrec] at h
        simp only [Option.some.injEq, Prod.mk.injEq] at h
        obtain ⟨hcs, -, -⟩ := h
        subst hcs
        simp [ih cs3 qx qy hrec]
      | none => rw [hrec] at h; exact absurd h (by simp)

/-- An oversized block is rejected by every bounded container. -/
theorem fit_into_existing_none_of_oversized (S : Nat) (b : Block)
    (cs : List PackedTexture) (hb : containersBounded S cs)
    (hover : S < b.w ∨ S < b.h) :
    fit_into_existing b cs = none := by
  induction cs with
  | nil => rfl
  | cons c rest ih =>
    have hc : boundedTree S c.root = true := hb c (by simp)
    have hrest : containersBounded S rest := fun d hd => hb d (by simp [hd])
    simp [fit_into_existing, fit_none_of_oversized S c.root b.w b.h hc hover, ih hrest]

/-- The container loop keeps every container tree bounded. -/
theorem fit_into_existing_bounded (S : Nat) (b : Block) (cs : List PackedTexture)
    (hb : containersBounded S cs) :
    ∀ cs2 x y, fit_into_existing b cs = some (cs2, x, y) → containersBounded S cs2 := by
  induction cs with
  | nil => intro cs2 x y h; simp [fit_into_existing] at h
  | cons c rest ih =>
    intro cs2 x y h
    have hc : boundedTree S c.root = true := hb c (by simp)
    have hrest : containersBounded S rest := fun d hd => hb d (by simp [hd])
    simp only [fit_into_existing] at h
    cases hf : fit c.root b.w b.h with
    | some p =>
      obtain ⟨px, py, t⟩ := p
      rw [hf] at h
      simp only [Option.some.injEq, Prod.mk.injEq] at h
      obtain ⟨hcs, -, -⟩ := h
      subst hcs
      intro d hd
      rcases List.mem_cons.mp hd with hd1 | hd2
      · subst hd1
        exact fit_bounded_preserved S c.root b.w b.h hc px py t hf
      · exact hrest d hd2
    | none =>
      rw [hf] at h
      cases hrec : fit_into_existing b rest with
      | some q =>
        obtain ⟨cs3, qx, qy⟩ := q
        rw [hrec] at h
        simp only [Option.some.injEq, Prod.mk.injEq] at h
        obtain ⟨hcs, -, -⟩ := h
        subst hcs
        intro d hd
        rcases List.mem_cons.mp hd with hd1 | hd2
        · subst hd1; exact hc
        · exact ih hrest cs3 qx qy hrec d hd2
      | none => rw [hrec] at h; exact absurd h (by simp)

/-- A block accepted by some bounded container is within bounds. -/
theorem fit_into_existing_some_le (S : Nat) (b : Block) (cs : List PackedTexture)
    (hb : containersBounded S cs) :
    ∀ p, fit_into_existing b cs = some p → b.w ≤ S ∧ b.h ≤ S := by
  intro p h
  by_cases hover : S < b.w ∨ S < b.h
  · rw [fit_into_existing_none_of_oversized S b cs hb hover] at h
    exact absurd h (by simp)
  · omega

/-! ### One step of the orchestrator loop -/

/-- An entry is well formed when its record's subtexture map is the
pre-placement map translated by the record's origin exactly once, and the
mutated block carries that same map. -/
def goodEntry (e : PlacedEntry) : Prop :=
  e.record.packed_subtextures
    = translate_subtextures e.record.top_left_corner_x e.record.top_left_corner_y
        e.preBlock.subtextures
  ∧ e.postBlock.subtextures = e.record.packed_subtextures

instance (e : PlacedEntry) : Decidable (goodEntry e) := by
  unfold goodEntry; infer_instance

/-- On an oversized block, `pack_block` changes no record, pastes nothing,
and still appends one container with an untouched fresh root and a blank
canvas. -/
theorem pack_block_oversized (S : Nat) (st : PackState) (b : Block)
    (hb : containersBounded S st.containers) (hover : S < b.w ∨ S < b.h) :
    pack_block S st b
      = ⟨st.containers ++ [⟨freshRoot S, []⟩], st.placed⟩ := by
  have h1 : fit_into_existing b st.containers = none :=
    fit_into_existing_none_of_oversized S b st.containers hb hover
  have h2 : fit (freshRoot S) b.w b.h = none :=
    fit_none_of_oversized S (freshRoot S) b.w b.h (boundedTree_freshRoot S) hover
  simp [pack_block, h1, h2]

/-- `pack_block` keeps every container tree bounded. -/
theorem pack_block_bounded (S : Nat) (st : PackState) (b : Block)
    (hb : containersBounded S st.containers) :
    containersBounded S (pack_block S st b).containers := by
  unfold pack_block
  cases hf : fit_into_existing b st.containers with
  | some p =>
    obtain ⟨cs, x, y⟩ := p
    exact fit_into_existing_bounded S b st.containers hb cs x y hf
  | none =>
    cases hfr : fit (freshRoot S) b.w b.h with
    | some q =>
      obtain ⟨x, y, t⟩ := q
      intro c hc
      simp only [List.mem_append, List.mem_singleton] at hc
      rcases hc with hc1 | hc2
      · exact hb c hc1
      · subst hc2
        exact fit_bounded_preserved S (freshRoot S) b.w b.h (boundedTree_freshRoot S) x y t hfr
    | none =>
      intro c hc
      simp only [List.mem_append, List.mem_singleton] at hc
      rcases hc with hc1 | hc2
      · exact hb c hc1
      · subst hc2; exact boundedTree_freshRoot S

/-- `pack_block` appends exactly one record when the block fits the
container size, and none otherwise; an appended record's block is the
processed block, is within bounds, and its entry is well formed. -/
theorem pack_block_placed (S : Nat) (st : PackState) (b : Block)
    (hb : containersBounded S st.containers) :
    (¬(b.w ≤ S ∧ b.h ≤ S) → (pack_block S st b).placed = st.placed)
    ∧ ((b.w ≤ S ∧ b.h ≤ S) →
        ∃ e, (pack_block S st b).placed = st.placed ++ [e]
          ∧ e.preBlock = b ∧ goodEntry e) := by
  constructor
  · intro hno
    have hover : S < b.w ∨ S < b.h := by omega
    rw [pack_block_oversized S st b hb hover]
  · intro hyes
    unfold pack_block
    cases hf : fit_into_existing b st.containers with
    | some p =>
      obtain ⟨cs, x, y⟩ := p
      refine ⟨_, rfl, rfl, ?_, ?_⟩
      · exact (ite_nil_translate x y b.subtextures)
      · rfl
    | none =>
      rw [fit_fresh_of_fits S b.w b.h hyes.1 hyes.2]
      refine ⟨_, rfl, rfl, ?_, ?_⟩
      · exact (translate_subtextures_zero b.subtextures).symm
      · rfl

/-! ### The full orchestration loop -/

/-- The loop keeps every container tree bounded. -/
theorem foldl_pack_block_bounded (S : Nat) (l : List Block) (st : PackState)
    (hb : containersBounded S st.containers) :
    containersBounded S ((l.foldl (pack_block S) st).containers) := by
  induction l generalizing st with
  | nil => exact hb
  | cons b rest ih => exact ih (pack_block S st b) (pack_block_bounded S st b hb)

/-- Processing a block list appends one placement entry per block that fits
the container size, in processing order. -/
theorem foldl_pack_block_placed_map (S : Nat) (l : List Block) (st : PackState)
    (hb : containersBounded S st.containers) :
    ((l.foldl (pack_block S) st).placed).map (fun e => e.preBlock)
      = st.placed.map (fun e => e.preBlock) ++ l.filter (fitsContainer S) := by
  induction l generalizing st with
  | nil => simp
  | cons b rest ih =>
    have htail := ih (pack_block S st b) (pack_block_bounded S st b hb)
    simp only [List.foldl_cons]
    rw [htail]
    by_cases hfits : b.w ≤ S ∧ b.h ≤ S
    · obtain ⟨e, he, hpre, -⟩ := (pack_block_placed S st b hb).2 hfits
      have hfb : fitsContainer S b = true := by
        simp [fitsContainer, hfits.1, hfits.2]
      rw [he]
      simp [List.filter_cons, hfb, hpre]
    · have hfb : fitsContainer S b = false := by
        simp only [fitsContainer, Bool.and_eq_false_iff, decide_eq_false_iff_not]
        omega
      rw [(pack_block_placed S st b hb).1 hfits]
      simp [List.filter_cons, hfb]

/-- Every placement entry produced by the loop is well formed and its block
fits the container size. -/
theorem foldl_pack_block_entries (S : Nat) (l : List Block) (st : PackState)
    (hb : containersBounded S st.containers) :
    ∀ e ∈ (l.foldl (pack_block S) st).placed,
      e ∈ st.placed ∨ (goodEntry e ∧ e.preBlock.w ≤ S ∧ e.preBlock.h ≤ S) := by
  induction l generalizing st with
  | nil => intro e he; exact Or.inl he
  | cons b rest ih =>
    intro e he
    rcases ih (pack_block S st b) (pack_block_bounded S st b hb) e he with hmem | hgood
    · by_cases hfits : b.w ≤ S ∧ b.h ≤ S
      · obtain ⟨e2, heq, hpre, hge⟩ := (pack_block_placed S st b hb).2 hfits
        rw [heq] at hmem
        rcases List.mem_append.mp hmem with h1 | h2
        · exact Or.inl h1
        · simp only [List.mem_singleton] at h2
          subst h2
          exact Or.inr ⟨hge, by rw [hpre]; exact hfits.1, by rw [hpre]; exact hfits.2⟩
      · rw [(pack_block_placed S st b hb).1 hfits] at hmem
        exact Or.inl hmem
    · exact Or.inr hgood

/-! ### The stable sort -/

/-- Inserting into the sorted list adds one occurrence of the inserted
block and keeps everything else. -/
theorem countP_insert_sorted (p : Block → Bool) (b : Block) (l : List Block) :
    (insert_sorted b l).countP p = l.countP p + (if p b then 1 else 0) := by
  induction l with
  | nil => simp [insert_sorted, List.countP_cons]
  | cons a rest ih =>
    by_cases hlt : minSide b < minSide a
    · simp only [insert_sorted, if_pos hlt, List.countP_cons, ih]
      omega
    · simp only [insert_sorted, if_neg hlt, List.countP_cons]

/-- The sort is a permutation as far as counting goes. -/
theorem countP_sortBlocks (p : Block → Bool) (l : List Block) :
    (sortBlocks l).countP p = l.countP p := by
  induction l with
  | nil => rfl
  | cons b rest ih =>
    simp only [sortBlocks, List.foldr_cons] at ih ⊢
    rw [countP_insert_sorted, ih, List.countP_cons]

/-! ### Facts about `pack_texture_blocks` -/

/-- All containers created by a packing run are bounded by the configured
edge length. -/
theorem pack_texture_blocks_bounded (tb : List Block) (S : Nat) :
    containersBounded S ((pack_texture_blocks tb S).containers) :=
  foldl_pack_block_bounded S (sortBlocks tb) ⟨[], []⟩ (by intro c hc; simp at hc)

/-- The blocks that receive a Placement Index record are exactly the blocks
that fit the container size, in sorted processing order. -/
theorem pack_placed_map (tb : List Block) (S : Nat) :
    ((pack_texture_blocks tb S).placed).map (fun e => e.preBlock)
      = (sortBlocks tb).filter (fitsContainer S) := by
  have h := foldl_pack_block_placed_map S (sortBlocks tb) ⟨[], []⟩
    (by intro c hc; simp at hc)
  simpa [pack_texture_blocks] using h

/-- One Placement Index record per block that fits the container size. -/
theorem pack_placed_length (tb : List Block) (S : Nat) :
    (pack_texture_blocks tb S).placed.length = tb.countP (fitsContainer S) := by
  have h := congrArg List.length (pack_placed_map tb S)
  simp only [List.length_map] at h
  rw [h, ← List.countP_eq_length_filter, countP_sortBlocks]

/-- Every emitted placement entry is well formed and within bounds. -/
theorem pack_entries (tb : List Block) (S : Nat) :
    ∀ e ∈ (pack_texture_blocks tb S).placed,
      goodEntry e ∧ e.preBlock.w ≤ S ∧ e.preBlock.h ≤ S := by
  intro e he
  rcases foldl_pack_block_entries S (sortBlocks tb) ⟨[], []⟩
    (by intro c hc; simp at hc) e he with h | h
  · simp at h
  · exact h

/-- `fit` is `find_node` followed by an in-place split of the found node:
the origin it returns is the found node's corner, and it fails exactly when
the search fails. -/
theorem fit_origin_eq_find_node (t : PackedNode) (width height : Nat) :
    (fit t width height).map (fun p => (p.1, p.2.1))
      = (find_node t width height).map (fun n => (n.getX, n.getY)) := by
  induction t with
  | nil => rfl
  | node x y w h used r l ihr ihl =>
    cases used with
    | false =>
      by_cases hc : width ≤ w ∧ height ≤ h <;>
        simp [fit, find_node, hc, PackedNode.getX, PackedNode.getY]
    | true =>
      simp only [fit, find_node, if_true]
      cases hr : fit r width height with
      | some p =>
        obtain ⟨px, py, r2⟩ := p
        rw [hr] at ihr
        cases hfn : find_node r width height with
        | some n =>
          rw [hfn] at ihr
          simp only [Option.map_some'] at ihr
          simp [ihr]
        | none => rw [hfn] at ihr; simp at ihr
      | none =>
        rw [hr] at ihr
        cases hfn : find_node r width height with
        | some n => rw [hfn] at ihr; simp at ihr
        | none =>
          cases hl : fit l width height with
          | some q =>
            obtain ⟨lx, ly, l2⟩ := q
            rw [hl] at ihl
            cases hln : find_node l width height with
            | some n =>
              rw [hln] at ihl
              simp only [Option.map_some'] at ihl
              simp [ihl]
            | none => rw [hln] at ihl; simp at ihl
          | none =>
            rw [hl] at ihl
            cases hln : find_node l width height with
            | some n => rw [hln] at ihl; simp at ihl
            | none => simp

/-! ### Claim theorems -/

/-- C5: splitting a node of rectangle `(x, y, w, h)` for a requested
`width ≤ w`, `height ≤ h` creates the right child `(x+width, y, w−width,
height)` and the down child `(x, y+height, w, h−height)`, and the placed
rectangle, right child and down child are pairwise disjoint and together
exactly cover the node's original rectangle. -/
theorem split_node_tiling (x y w h : Nat) (used : Bool) (r l : PackedNode)
    (width height : Nat) (hw : width ≤ w) (hh : height ≤ h) (i j : Nat) :
    split_node (.node x y w h used r l) width height
      = .node x y w h true
          (.node (x + width) y (w - width) height false .nil .nil)
          (.node x (y + height) w (h - height) false .nil .nil)
    ∧ (inRect x y width height i j ∨ inRect (x + width) y (w - width) height i j
        ∨ inRect x (y + height) w (h - height) i j ↔ inRect x y w h i j)
    ∧ ¬(inRect x y width height i j ∧ inRect (x + width) y (w - width) height i j)
    ∧ ¬(inRect x y width height i j ∧ inRect x (y + height) w (h - height) i j)
    ∧ ¬(inRect (x + width) y (w - width) height i j
        ∧ inRect x (y + height) w (h - height) i j) := by
  refine ⟨rfl, ?_, ?_, ?_, ?_⟩ <;> (unfold inRect; omega)

/-- Witness for `split_node_tiling` at the concrete node `(0, 0, 4, 3)`,
request `2×1`, point `(3, 2)`. -/
theorem split_node_tiling_witness :
    2 ≤ 4 ∧ 1 ≤ 3 ∧
    (split_node (.node 0 0 4 3 false .nil .nil) 2 1
       = .node 0 0 4 3 true
           (.node (0 + 2) 0 (4 - 2) 1 false .nil .nil)
           (.node 0 (0 + 1) 4 (3 - 1) false .nil .nil)
     ∧ (inRect 0 0 2 1 3 2 ∨ inRect (0 + 2) 0 (4 - 2) 1 3 2
         ∨ inRect 0 (0 + 1) 4 (3 - 1) 3 2 ↔ inRect 0 0 4 3 3 2)
     ∧ ¬(inRect 0 0 2 1 3 2 ∧ inRect (0 + 2) 0 (4 - 2) 1 3 2)
     ∧ ¬(inRect 0 0 2 1 3 2 ∧ inRect 0 (0 + 1) 4 (3 - 1) 3 2)
     ∧ ¬(inRect (0 + 2) 0 (4 - 2) 1 3 2 ∧ inRect 0 (0 + 1) 4 (3 - 1) 3 2)) :=
  ⟨by decide, by decide,
   split_node_tiling 0 0 4 3 false .nil .nil 2 1 (by decide) (by decide) 3 2⟩

/-- C6: the placement search returns no match on an absent node; on a used
node it returns the result of searching the right child and, only if that
found nothing, the down (left) child; on an unused node it returns the node
itself exactly when `width ≤ node.w ∧ height ≤ node.h`, else no match. -/
theorem find_node_spec (width height : Nat) :
    find_node PackedNode.nil width height = none
    ∧ (∀ x y w h r l,
        find_node (PackedNode.node x y w h true r l) width height
          = match find_node r width height with
            | some n => some n
            | none => find_node l width height)
    ∧ (∀ x y w h r l,
        find_node (PackedNode.node x y w h false r l) width height
          = if width ≤ w ∧ height ≤ h
            then some (PackedNode.node x y w h false r l)
            else none) := by
  refine ⟨rfl, fun x y w h r l => ?_, fun x y w h r l => ?_⟩ <;> simp [find_node]

/-- C1 (refuted, code bug): the recorded container index is
`len(containers) − 1`, not the index of the container whose canvas the
block was composited onto.  With `S = 100` and blocks `100×60`, `50×50`,
`30×30`, the third block is pasted onto container 0 at `(0, 60)` — its
pixels appear in container 0's canvas and in no other — yet its Placement
Index record carries container index 1. -/
theorem record_index_misattributed :
    ((pack_texture_blocks
        [⟨100, 60, "A", []⟩, ⟨50, 50, "B", []⟩, ⟨30, 30, "C", []⟩] 100).containers).map
        (fun c => c.image)
      = [[("A", 0, 0), ("C", 0, 60)], [("B", 0, 0)]]
    ∧ (packed_texture_indices
        (pack_texture_blocks
          [⟨100, 60, "A", []⟩, ⟨50, 50, "B", []⟩, ⟨30, 30, "C", []⟩] 100)).map
        (fun rec2 => (rec2.packed_index, rec2.top_left_corner_x, rec2.top_left_corner_y))
      = [(0, 0, 0), (1, 0, 0), (1, 0, 60)] := by
  decide

/-- C2 (counterexample): in Scenario A the run produces three containers,
not two — placing a `512×512` block in a `512` container leaves only
zero-area children, so the `256×256` block fits in neither existing
container. -/
theorem scenario_a_container_count :
    (pack_texture_blocks
      [⟨512, 512, "t1", []⟩, ⟨512, 512, "t2", []⟩, ⟨256, 256, "t3", []⟩]
      512).containers.length ≠ 2 := by
  decide

/-- C2 (amended): Scenario A produces exactly 3 Placement Index records and
exactly 3 containers; each block sits at origin `(0, 0)` of its own
container, in submission order. -/
theorem scenario_a_amended :
    (pack_texture_blocks
      [⟨512, 512, "t1", []⟩, ⟨512, 512, "t2", []⟩, ⟨256, 256, "t3", []⟩]
      512).containers.length = 3
    ∧ (packed_texture_indices
        (pack_texture_blocks
          [⟨512, 512, "t1", []⟩, ⟨512, 512, "t2", []⟩, ⟨256, 256, "t3", []⟩] 512)).map
        (fun rec2 => (rec2.packed_index, rec2.top_left_corner_x, rec2.top_left_corner_y))
      = [(0, 0, 0), (1, 0, 0), (2, 0, 0)]
    ∧ ((pack_texture_blocks
        [⟨512, 512, "t1", []⟩, ⟨512, 512, "t2", []⟩, ⟨256, 256, "t3", []⟩]
        512).containers).map (fun c => c.image)
      = [[("t1", 0, 0)], [("t2", 0, 0)], [("t3", 0, 0)]] := by
  decide

/-- C3 (refuted, code bug): `load_packed_state` rebuilds every container
with a brand-new unused root of the saved root's dimensions, discarding the
split tree (while keeping the old canvas).  Concretely: run 1 packs a
`50×50` block X into a fresh `100` container, whose saved root is used;
after loading, the root is fresh and unused, so packing a `50×50` block Y
into the loaded container returns origin `(0, 0)` and Y's rectangle
overlaps X's. -/
theorem load_discards_split_tree :
    ((pack_texture_blocks [⟨50, 50, "X", []⟩] 100).containers).map
        (fun c => c.root.getUsed)
      = [true]
    ∧ load_packed_state (pack_texture_blocks [⟨50, 50, "X", []⟩] 100).containers
      = [⟨PackedNode.node 0 0 100 100 false .nil .nil, [("X", 0, 0)]⟩]
    ∧ (fit (PackedNode.node 0 0 100 100 false .nil .nil) 50 50).map
        (fun p => (p.1, p.2.1))
      = some (0, 0)
    ∧ rectsIntersect 0 0 50 50 0 0 50 50 = true := by
  decide

/-- C4 (refuted, code bug): two distinct Placement Index records can carry
the same container index with intersecting rectangles, because the index is
recorded as `len(containers) − 1` regardless of which container accepted
the block.  With `S = 10` and blocks `10×7`, `5×5`, `6×4`, `3×3`, the
records for the `6×4` block (index 1, origin `(0, 5)`) and the `3×3` block
(index 1, origin `(0, 7)`) share container index 1 and their rectangles
intersect. -/
theorem same_index_records_overlap :
    ((pack_texture_blocks
        [⟨10, 7, "A", []⟩, ⟨5, 5, "B", []⟩, ⟨6, 4, "B2", []⟩, ⟨3, 3, "C", []⟩]
        10).placed).map
        (fun e => (e.record.packed_index, e.record.top_left_corner_x,
                   e.record.top_left_corner_y, e.preBlock.w, e.preBlock.h))
      = [(0, 0, 0, 10, 7), (1, 0, 0, 5, 5), (1, 0, 5, 6, 4), (1, 0, 7, 3, 3)]
    ∧ rectsIntersect 0 5 6 4 0 7 3 3 = true := by
  decide

/-- C7: for every successfully placed block, the subtexture map in its
Placement Index record equals the pre-placement map translated by the
placement origin exactly once, and the block's mutated map is that same
map.  (In the new-container branch the source performs zero translations,
but there the origin is always `(0, 0)`, so the coordinates still equal the
local coordinates plus one application of the origin.) -/
theorem translate_once (tb : List Block) (S : Nat) (e : PlacedEntry)
    (he : e ∈ (pack_texture_blocks tb S).placed) :
    e.record.packed_subtextures
      = translate_subtextures e.record.top_left_corner_x e.record.top_left_corner_y
          e.preBlock.subtextures
    ∧ e.postBlock.subtextures = e.record.packed_subtextures :=
  (pack_entries tb S e he).1

/-- Witness for `translate_once`: a `4×4` block with one nested region at
local `(1, 2)` is placed at `(0, 6)` of container 0 and its region becomes
`(1, 8)` both in the record and in the mutated block. -/
theorem translate_once_witness :
    (⟨⟨4, 4, "B", [("s", ⟨1, 2, 3, 4⟩)]⟩, ⟨4, 4, "B", [("s", ⟨1, 8, 3, 4⟩)]⟩,
       ⟨0, 0, 6, [("s", ⟨1, 8, 3, 4⟩)]⟩⟩ : PlacedEntry)
      ∈ (pack_texture_blocks
          [⟨10, 6, "A", []⟩, ⟨4, 4, "B", [("s", ⟨1, 2, 3, 4⟩)]⟩] 10).placed
    ∧ ([("s", (⟨1, 8, 3, 4⟩ : SubTex))]
        = translate_subtextures 0 6 [("s", ⟨1, 2, 3, 4⟩)]
       ∧ [("s", (⟨1, 8, 3, 4⟩ : SubTex))] = [("s", (⟨1, 8, 3, 4⟩ : SubTex))]) :=
  ⟨by decide,
   translate_once [⟨10, 6, "A", []⟩, ⟨4, 4, "B", [("s", ⟨1, 2, 3, 4⟩)]⟩] 10
     ⟨⟨4, 4, "B", [("s", ⟨1, 2, 3, 4⟩)]⟩, ⟨4, 4, "B", [("s", ⟨1, 8, 3, 4⟩)]⟩,
      ⟨0, 0, 6, [("s", ⟨1, 8, 3, 4⟩)]⟩⟩ (by decide)⟩

/-- C8: on an input list containing an oversized block, packing still
completes (the model is a total function), the oversized block appears in
no Placement Index record — every recorded block has both sides at most
`S` — and each block with both sides at most `S` still gets exactly one
record. -/
theorem drop_correctness (tb : List Block) (S : Nat)
    (_hex : ∃ b ∈ tb, S < b.w ∨ S < b.h) :
    (∀ e ∈ (pack_texture_blocks tb S).placed,
        e.preBlock.w ≤ S ∧ e.preBlock.h ≤ S)
    ∧ (pack_texture_blocks tb S).placed.length = tb.countP (fitsContainer S) :=
  ⟨fun e he => (pack_entries tb S e he).2, pack_placed_length tb S⟩

/-- Witness for `drop_correctness`: `S = 4`, one `5×3` block (dropped) and
one `2×2` block (placed). -/
theorem drop_correctness_witness :
    (∃ b ∈ [(⟨5, 3, "big", []⟩ : Block), ⟨2, 2, "ok", []⟩], 4 < b.w ∨ 4 < b.h)
    ∧ ((∀ e ∈ (pack_texture_blocks
          [(⟨5, 3, "big", []⟩ : Block), ⟨2, 2, "ok", []⟩] 4).placed,
          e.preBlock.w ≤ 4 ∧ e.preBlock.h ≤ 4)
       ∧ (pack_texture_blocks
            [(⟨5, 3, "big", []⟩ : Block), ⟨2, 2, "ok", []⟩] 4).placed.length
          = List.countP (fitsContainer 4) [(⟨5, 3, "big", []⟩ : Block), ⟨2, 2, "ok", []⟩]) :=
  ⟨by decide,
   drop_correctness [(⟨5, 3, "big", []⟩ : Block), ⟨2, 2, "ok", []⟩] 4 (by decide)⟩

/-- C9: a block with both sides at most `S` always fits a freshly created
`S×S` container at origin `(0, 0)`; consequently the blocks receiving a
Placement Index record are exactly the blocks that fit the container size
(one record each, in sorted processing order). -/
theorem eligible_always_placed (S : Nat) (tb : List Block) (b : Block)
    (hw : b.w ≤ S) (hh : b.h ≤ S) :
    fit (freshRoot S) b.w b.h = some (0, 0, split_node (freshRoot S) b.w b.h)
    ∧ ((pack_texture_blocks tb S).placed).map (fun e => e.preBlock)
        = (sortBlocks tb).filter (fitsContainer S)
    ∧ (pack_texture_blocks tb S).placed.length = tb.countP (fitsContainer S) :=
  ⟨fit_fresh_of_fits S b.w b.h hw hh, pack_placed_map tb S, pack_placed_length tb S⟩

/-- Witness for `eligible_always_placed`: a `2×2` block and `S = 3`. -/
theorem eligible_always_placed_witness :
    2 ≤ 3 ∧ 2 ≤ 3
    ∧ (fit (freshRoot 3) 2 2 = some (0, 0, split_node (freshRoot 3) 2 2)
       ∧ ((pack_texture_blocks [(⟨2, 2, "b", []⟩ : Block)] 3).placed).map
            (fun e => e.preBlock)
          = (sortBlocks [(⟨2, 2, "b", []⟩ : Block)]).filter (fitsContainer 3)
       ∧ (pack_texture_blocks [(⟨2, 2, "b", []⟩ : Block)] 3).placed.length
          = List.countP (fitsContainer 3) [(⟨2, 2, "b", []⟩ : Block)]) :=
  ⟨by decide, by decide,
   eligible_always_placed 3 [(⟨2, 2, "b", []⟩ : Block)] ⟨2, 2, "b", []⟩
     (by decide) (by decide)⟩

/-- C10: a block that fits no existing container and also fails in the new
container (a side exceeds `S`) still causes the new container — untouched
fresh root, blank canvas — to be appended, so the container count grows by
exactly one while no record is emitted. -/
theorem overflow_container_still_appended (S : Nat) (st : PackState) (b : Block)
    (hb : containersBounded S st.containers) (hover : S < b.w ∨ S < b.h) :
    pack_block S st b = ⟨st.containers ++ [⟨freshRoot S, []⟩], st.placed⟩
    ∧ (freshRoot S).getUsed = false
    ∧ (pack_block S st b).containers.length = st.containers.length + 1
    ∧ (pack_block S st b).placed = st.placed := by
  have h := pack_block_oversized S st b hb hover
  refine ⟨h, rfl, ?_, ?_⟩
  · rw [h]; simp
  · rw [h]

/-- Witness for `overflow_container_still_appended`: empty state, `S = 4`,
a `5×1` block. -/
theorem overflow_container_still_appended_witness :
    containersBounded 4 ([] : List PackedTexture)
    ∧ (4 < 5 ∨ 4 < 1)
    ∧ (pack_block 4 ⟨[], []⟩ ⟨5, 1, "x", []⟩
         = ⟨([] : List PackedTexture) ++ [⟨freshRoot 4, []⟩], []⟩
       ∧ (freshRoot 4).getUsed = false
       ∧ (pack_block 4 ⟨[], []⟩ ⟨5, 1, "x", []⟩).containers.length
          = ([] : List PackedTexture).length + 1
       ∧ (pack_block 4 ⟨[], []⟩ ⟨5, 1, "x", []⟩).placed = []) :=
  ⟨by decide, by decide,
   overflow_container_still_appended 4 ⟨[], []⟩ ⟨5, 1, "x", []⟩
     (by decide) (by decide)⟩

end TexturePacker
